import Mathlib

/-!
Verification development for the geolucidate coordinate parser.

The Python source (src/geolucidate/parser.py, src/geolucidate/functions.py)
is shallowly embedded below:

* `RE` / `mall` — a backtracking regular-expression engine over an AST that
  covers exactly the constructs used by the two source regexes
  (ordered alternation, greedy option and character-class repetition,
  named groups, conditional groups `(?(name)yes|no)`, `^`/`$` anchors,
  case-insensitive literals).  `mall` enumerates all complete parses in
  Python's depth-first priority order (alternation left-to-right, greedy
  quantifiers longest-first); the head of the list is the match Python's
  `re.match` returns, with captures threaded functionally exactly as the
  CPython engine restores marks on backtracking.
* `decimalDegreeRe`, `degreeMinSecRe` — the two compiled patterns of
  parser.py, transcribed node by node.
* `PyDec` plus the exact-fraction context operations — the subset of
  Python's `decimal` module used by functions.py: `ExtendedContext` has
  precision 9 and ROUND_HALF_EVEN, so every arithmetic operation rounds
  its exact rational result to 9 significant digits, half-to-even;
  `_convert_signs` multiplies in the default 28-digit context; `quantize`
  rounds half-to-even to a fixed exponent, and `str` renders without
  exponent for the exponents arising here.
* `cleanup`, `convertToLatLng`, `convertSigns`, `retrieveLatLong`,
  `getReplacements` — the functions of functions.py.  Raised Python
  exceptions (`AttributeError` on a failed match, `InvalidOperation` from
  `Decimal`) are modelled as `none`.
-/

namespace Geolucidate

/-! ## Character helpers -/

/-- ASCII decimal digit, the `\d` class on the inputs considered here. -/
def isDigitC (c : Char) : Bool := '0' ≤ c && c ≤ '9'

/-- Python whitespace: the characters `str.isspace()` accepts, which is
what both `str.strip()` removes and `\s` matches in a Unicode pattern. -/
def isSpaceC (c : Char) : Bool :=
  c = ' ' || c = '\t' || c = '\n' || c = '\r' || c = '\x0b' || c = '\x0c' ||
  c = '\x1c' || c = '\x1d' || c = '\x1e' || c = '\x1f' || c = '\x85' || c = '\xa0' ||
  c = '\u1680' || ('\u2000' ≤ c && c ≤ '\u200a') || c = '\u2028' || c = '\u2029' ||
  c = '\u202f' || c = '\u205f' || c = '\u3000'

/-- Character range class such as `[0-8]`. -/
def inRange (lo hi c : Char) : Bool := lo ≤ c && c ≤ hi

/-- Case-insensitive membership in a set of characters, e.g. `[NS]` under
`re.IGNORECASE`. -/
def ciOneOf (chars : String) (c : Char) : Bool :=
  chars.toList.any fun x => x.toLower = c.toLower

/-! ## Regular-expression AST and engine -/

/-- Capture environment: newest binding first, as the engine threads it. -/
abbrev Caps := List (String × String)

/-- Captured substring of group `n`, `none` when the group did not
participate in the match (Python `groupdict()` value `None`). -/
def getCap (c : Caps) (n : String) : Option String :=
  match c with
  | [] => none
  | (m, v) :: rest => if m = n then some v else getCap rest n

/-- AST for the regex constructs used by parser.py. -/
inductive RE where
  | eps
  | cls (f : Char → Bool)
  | litCI (s : String)
  | seq (a b : RE)
  | alt (a b : RE)
  | opt (a : RE)
  | rep (f : Char → Bool) (lo : Nat) (hi : Option Nat)
  | group (n : String) (a : RE)
  | cond (n : String) (yes : RE)
  | condElse (n : String) (yes no : RE)
  | startAnchor
  | endAnchor

/-- Case-insensitively consume the literal `l` from the front of `s`. -/
def consumeCI : List Char → List Char → Option (List Char)
  | [], s => some s
  | _ :: _, [] => none
  | x :: xs, y :: ys => if x.toLower = y.toLower then consumeCI xs ys else none

/-- Greedy candidate lengths for `rep f lo hi` on input `s`:
longest first, shortest (`lo`) last; empty when even `lo` repetitions are
unavailable.  Used for `\d+`, `\d{1,2}`, `\.\d{1,3}`, `[\s,]+`. -/
def repLens (f : Char → Bool) (lo : Nat) (hi : Option Nat) (s : List Char) : List Nat :=
  let m := (s.takeWhile f).length
  let top := match hi with | some h => min h m | none => m
  if lo ≤ top then (List.range (top + 1 - lo)).map (fun i => top - i) else []

/-- All complete parses of `re` on suffix `s` at absolute position `p` with
captures `c`, in Python's backtracking priority order.  Each result is
(remaining suffix, end position, captures). -/
def mall : RE → List Char → Nat → Caps → List (List Char × Nat × Caps)
  | .eps, s, p, c => [(s, p, c)]
  | .cls f, s, p, c =>
      match s with
      | [] => []
      | x :: xs => if f x then [(xs, p + 1, c)] else []
  | .litCI l, s, p, c =>
      match consumeCI l.toList s with
      | some s' => [(s', p + l.length, c)]
      | none => []
  | .seq a b, s, p, c => (mall a s p c).flatMap fun r => mall b r.1 r.2.1 r.2.2
  | .alt a b, s, p, c => mall a s p c ++ mall b s p c
  | .opt a, s, p, c => mall a s p c ++ [(s, p, c)]
  | .rep f lo hi, s, p, c => (repLens f lo hi s).map fun L => (s.drop L, p + L, c)
  | .group n a, s, p, c =>
      (mall a s p c).map fun r => (r.1, r.2.1, (n, String.mk (s.take (r.2.1 - p))) :: r.2.2)
  | .cond n yes, s, p, c =>
      if (getCap c n).isSome then mall yes s p c else [(s, p, c)]
  | .condElse n yes no, s, p, c =>
      if (getCap c n).isSome then mall yes s p c else mall no s p c
  | .startAnchor, s, p, c => if p = 0 then [(s, p, c)] else []
  | .endAnchor, s, p, c =>
      match s with
      | [] => [(s, p, c)]
      | [x] => if x = '\n' then [(s, p, c)] else []
      | _ => []

/-- `re.match(pattern, s)`: the first complete parse in priority order.
Both source patterns carry their own `^`/`$` anchors, so position 0 and
span handling are those of the pattern itself. -/
def reMatch (re : RE) (s : String) : Option Caps :=
  ((mall re s.toList 0 []).head?).map (·.2.2)

/-- Right-nested sequencing of a list of nodes. -/
def seqL (l : List RE) : RE := l.foldr .seq .eps

/-- Ordered alternation of a list of branches (left branch first). -/
def altL (l : List RE) : RE := l.foldr .alt (.cls fun _ => false)

/-! ## The two patterns of parser.py -/

/-- `NORTH|SOUTH|[NS]` (case-insensitive). -/
def dirNS : RE := altL [.litCI "NORTH", .litCI "SOUTH", .cls (ciOneOf "NS")]

/-- `EAST|WEST|[EW]` (case-insensitive). -/
def dirEW : RE := altL [.litCI "EAST", .litCI "WEST", .cls (ciOneOf "EW")]

/-- `\s?` -/
def spaceOpt : RE := .opt (.cls isSpaceC)

/-- `(degrees|°)?` (case-insensitive). -/
def degWordOpt : RE := .opt (.alt (.litCI "degrees") (.litCI "°"))

/-- A coordinate number of `decimal_degree_re`:
`(?P<nm>RANGE(?P<pt>\.)?(?(pt)(\d+)|[^\d]))` — without a decimal point the
one non-digit terminator character is part of the capture. -/
def decNumber (nm pt : String) (range : RE) : RE :=
  .group nm (seqL [range,
    .opt (.group pt (.cls (· = '.'))),
    .condElse pt (.rep isDigitC 1 none) (.cls fun c => !isDigitC c)])

/-- `([0-8][0-9]|90)` — latitude degrees of the decimal pattern. -/
def latRange : RE :=
  .alt (seqL [.cls (inRange '0' '8'), .cls isDigitC]) (.litCI "90")

/-- `((1(([0-7][0-9]|80))|(0?[0-9][0-9])))` — longitude degrees. -/
def longRange : RE :=
  .alt (.seq (.cls (· = '1'))
             (.alt (seqL [.cls (inRange '0' '7'), .cls isDigitC]) (.litCI "80")))
       (seqL [.opt (.cls (· = '0')), .cls isDigitC, .cls isDigitC])

/-- `decimal_degree_re`, transcribed node for node. -/
def decimalDegreeRe : RE := seqL [
  .startAnchor,
  .opt (.cls (· = '(')),
  .opt (.group "latdir" (altL [.litCI "NORTH", .litCI "SOUTH", .cls (ciOneOf "NS-")])),
  spaceOpt,
  decNumber "latitude" "latpoint" latRange,
  spaceOpt,
  degWordOpt,
  spaceOpt,
  .opt (.group "latdir2" dirNS),
  .opt (.rep (fun c => isSpaceC c || c = ',') 1 none),
  .opt (.group "longdir" (altL [.litCI "EAST", .litCI "WEST", .cls (ciOneOf "EW-")])),
  spaceOpt,
  decNumber "longitude" "longpoint" longRange,
  spaceOpt,
  degWordOpt,
  spaceOpt,
  .opt (.group "longdir2" dirEW),
  .opt (.cls (· = ')')),
  .endAnchor]

/-- `\ ?(º|°)\ ?` — first branch of the `degmark` alternation. -/
def degMarkGlyph : RE :=
  seqL [.opt (.cls (· = ' ')), .alt (.litCI "º") (.litCI "°"), .opt (.cls (· = ' '))]

/-- `('|"|\ MINUTES,?)\ ?` — punctuation after minutes when a degree mark
was seen. -/
def minutesPunct : RE :=
  .seq (altL [.cls (· = '\''), .cls (· = '"'),
              .seq (.litCI " MINUTES") (.opt (.cls (· = ',')))])
       (.opt (.cls (· = ' ')))

/-- `("|'|\ SECONDS\ )?` — punctuation after seconds when a degree mark
was seen. -/
def secondsPunct : RE :=
  .opt (altL [.cls (· = '"'), .cls (· = '\''), .litCI " SECONDS "])

/-- `(\d{1,2}(\.\d+)?)` — a seconds value. -/
def secNum : RE :=
  .seq (.rep isDigitC 1 (some 2))
       (.opt (.seq (.cls (· = '.')) (.rep isDigitC 1 none)))

/-- `([0-5]?)[0-9]` — a minutes value. -/
def minNum : RE := .seq (.opt (.cls (inRange '0' '5'))) (.cls isDigitC)

/-- `degree_min_sec_re` up to (excluding) the `latminsec` group:
`^\(?` , latitude direction/sign, `latdeg`, degrees/minutes separator. -/
def dmsA1 : RE := seqL [
  .startAnchor,
  .opt (.cls (· = '(')),
  .opt (.alt (.seq (.group "latdir" dirNS) (.opt (.cls (· = ' '))))
             (.group "latsign" (.cls (· = '-')))),
  .group "latdeg" (.alt (.seq (.opt (.cls (inRange '0' '8'))) (.cls isDigitC)) (.litCI "90")),
  .opt (.alt (.cls (· = ' '))
             (.group "degmark" (altL [
                degMarkGlyph,
                .group "degpd" (.cls (· = '.')),
                .cls (· = '-'),
                .litCI " DEGREES, "])))]

/-- The optional `latminsec` group of `degree_min_sec_re`. -/
def dmsLatMS : RE :=
  .opt (.group "latminsec" (seqL [
    .group "latmin" minNum,
    .opt (.alt (.cls (· = ' ')) (.cond "degmark" minutesPunct)),
    .opt (.alt (.seq (.cond "degpd" (.opt (.cls (· = '.')))) (.group "latsec" secNum))
               (.group "latdecsec" (.seq (.cls (· = '.')) (.rep isDigitC 1 (some 3))))),
    .cond "degmark" secondsPunct]))

/-- `degree_min_sec_re` between the `latminsec` group and the
`latminsec`-conditional: `latdir2`, the lat/long delimiter, the longitude
direction alternation, `longdeg` and its separator. -/
def dmsA2 : RE := seqL [
  .opt (.cls (· = ' ')),
  .opt (.group "latdir2" dirNS),
  .opt (altL [seqL [.opt (.cls (· = ' ')), .cls (fun c => c = ' ' || c = '/'), .opt (.cls (· = ' '))],
              .seq (.cls (· = ',')) (.cls (· = ' '))]),
  .alt (.cond "latdir" (.seq (.group "longdir" dirEW) (.opt (.cls (· = ' ')))))
       (.opt (.group "longsign" (.cls (· = '-')))),
  .group "longdeg" longRange,
  .opt (.alt (.cls (· = ' '))
             (.cond "degmark" (altL [degMarkGlyph, .cls (· = '.'), .cls (· = '-'),
                                     .litCI " DEGREES, "])))]

/-- The `latminsec`-conditional of `degree_min_sec_re`: minutes and seconds
of the longitude are looked for exactly when the latitude had them. -/
def dmsLongMS : RE :=
  .cond "latminsec" (.seq
    (.group "longminsec" (seqL [
      .group "longmin" minNum,
      .opt (.alt (.cls (· = ' ')) (.cond "degmark" minutesPunct)),
      .opt (.alt (.seq (.cond "degpd" (.opt (.cls (· = '.')))) (.group "longsec" secNum))
                 (.group "longdecsec" (.seq (.cls (· = '.')) (.rep isDigitC 1 (some 3)))))]))
    (.cond "degmark" secondsPunct))

/-- Tail of `degree_min_sec_re`: the `latdir2`-conditional longitude
direction, `\)?` and `$`. -/
def dmsA3 : RE := seqL [
  .cond "latdir2" (.seq (.opt (.cls (· = ' '))) (.group "longdir2" dirEW)),
  .opt (.cls (· = ')')),
  .endAnchor]

/-- `degree_min_sec_re`, split at the two minutes/seconds blocks so that
the symmetry argument can be stated by decomposition. -/
def degreeMinSecRe : RE := .seq dmsA1 (.seq dmsLatMS (.seq dmsA2 (.seq dmsLongMS dmsA3)))

/-! ## The decimal module, as used by functions.py

`_convert_to_lat_lng` runs inside `localcontext(ExtendedContext)`:
precision 9, rounding ROUND_HALF_EVEN.  Every arithmetic operation there
rounds its exact rational result to 9 significant digits half-to-even.
`_convert_signs` runs in the default context (precision 28,
ROUND_HALF_EVEN): its one multiplication by `Decimal('-1')` flips the
sign and rounds a coefficient longer than 28 digits — which the
grammar's unbounded decimal fractions can produce (`pyDecMulNegOne`). -/

/-- An exact (unreduced) fraction with positive denominator: the exact
rational intermediate of a `decimal` operation.  Plain integer pairs are
used instead of `ℚ` so that every evaluation reduces inside the kernel. -/
structure Frac where
  num : ℤ
  den : ℤ
  deriving Repr, DecidableEq

/-- Rational value of a fraction (for statements only). -/
def Frac.val (a : Frac) : ℚ := (a.num : ℚ) / (a.den : ℚ)

/-- Embed an integer. -/
def fInt (n : ℤ) : Frac := ⟨n, 1⟩

/-- Exact sum. -/
def fAdd (a b : Frac) : Frac := ⟨a.num * b.den + b.num * a.den, a.den * b.den⟩

/-- Exact quotient; the denominator sign is kept positive. -/
def fDiv (a b : Frac) : Frac :=
  let n := a.num * b.den
  let d := a.den * b.num
  if d < 0 then ⟨-n, -d⟩ else ⟨n, d⟩

/-- Exact negation. -/
def fNeg (a : Frac) : Frac := ⟨-a.num, a.den⟩

/-- `a < b` for positive denominators. -/
def fLt (a b : Frac) : Bool := a.num * b.den < b.num * a.den

/-- Multiply by `10 ^ e`. -/
def fScale10 (a : Frac) (e : ℤ) : Frac :=
  if 0 ≤ e then ⟨a.num * 10 ^ e.toNat, a.den⟩ else ⟨a.num, a.den * 10 ^ (-e).toNat⟩

/-- A finite Python `Decimal` value: sign, coefficient, exponent. -/
structure PyDec where
  neg : Bool
  coeff : ℕ
  exp : ℤ
  deriving Repr, DecidableEq

/-- Exact value of a `PyDec`. -/
def PyDec.val (d : PyDec) : Frac :=
  fScale10 ⟨if d.neg then -(d.coeff : ℤ) else (d.coeff : ℤ), 1⟩ d.exp

/-- Numeric value of a list of ASCII digits, most significant first. -/
def digitsVal : List Char → ℕ → ℕ
  | [], acc => acc
  | c :: cs, acc => digitsVal cs (acc * 10 + (c.toNat - '0'.toNat))

/-- `Decimal(string)` for the plain (non-exponent) numeric strings that
occur here: leading/trailing whitespace is removed, then an optional sign,
digits, an optional single point and more digits; at least one digit in
total.  Anything else raises `InvalidOperation`, modelled as `none`.
(The constructor's exponent-suffix and underscore allowances are never
exercised by grammar captures and are omitted.) -/
def parseDec (s : String) : Option PyDec :=
  let t := ((s.toList.dropWhile isSpaceC).reverse.dropWhile isSpaceC).reverse
  let (sgn, t1) : Bool × List Char :=
    match t with
    | '-' :: r => (true, r)
    | '+' :: r => (false, r)
    | r => (false, r)
  let ip := t1.takeWhile isDigitC
  let rest := t1.drop ip.length
  match rest with
  | [] => if ip.isEmpty then none else some ⟨sgn, digitsVal ip 0, 0⟩
  | '.' :: r =>
      let fp := r.takeWhile isDigitC
      if fp.length = r.length ∧ ¬(ip.isEmpty ∧ fp.isEmpty) then
        some ⟨sgn, digitsVal (ip ++ fp) 0, -(fp.length : ℤ)⟩
      else none
  | _ => none

/-- Round a fraction (positive denominator) to an integer, half to even
(the rounding of `ExtendedContext`). -/
def rhe (a : Frac) : ℤ :=
  let n := Int.fdiv a.num a.den
  let r := a.num - n * a.den
  if 2 * r < a.den then n
  else if a.den < 2 * r then n + 1
  else if n % 2 = 0 then n else n + 1

/-- Number of digits of the decimal numeral of `n` (1 for 0). -/
def numDigits (n : ℕ) : ℕ := (Nat.toDigits 10 n).length

/-- `10 ^ e ≤ |a|` for a nonzero fraction with positive denominator. -/
def fAbsGePow10 (a : Frac) (e : ℤ) : Bool :=
  if 0 ≤ e then a.den * 10 ^ e.toNat ≤ |a.num| else a.den ≤ |a.num| * 10 ^ (-e).toNat

/-- The adjusted exponent `⌊log10 |a|⌋` of a nonzero fraction: the digit
counts of numerator and denominator narrow it to two candidates, one
comparison settles it. -/
def decExp (a : Frac) : ℤ :=
  let e0 : ℤ := (numDigits a.num.natAbs : ℤ) - (numDigits a.den.toNat : ℤ)
  if fAbsGePow10 a e0 then e0 else e0 - 1

/-- Round a fraction to 9 significant digits, half to even: the result of
any `ExtendedContext` arithmetic operation whose exact value it is. -/
def ctxRound (a : Frac) : Frac :=
  if a.num = 0 then ⟨0, 1⟩
  else
    let e : ℤ := decExp a - 8
    fScale10 (fInt (rhe (fScale10 a (-e)))) e

/-- Context addition. -/
def ctxAdd (a b : Frac) : Frac := ctxRound (fAdd a b)

/-- Context division. -/
def ctxDiv (a b : Frac) : Frac := ctxRound (fDiv a b)

/-- `value.quantize(Decimal(10 ^ -d))` under ROUND_HALF_EVEN, as the
integer of `10 ^ d`-ths. -/
def quantInt (a : Frac) (d : ℕ) : ℤ := rhe (fScale10 a d)

/-- `str` of a quantized `Decimal` with exponent `-d` whose coefficient is
`m` and whose sign flag is `negSign`: fixed decimal notation, `d` digits
after the point (no point when `d = 0`), trailing zeros kept. -/
def renderFixed (negSign : Bool) (m : ℕ) (d : ℕ) : String :=
  let ds := Nat.toDigits 10 m
  let padded := if ds.length < d + 1 then List.replicate (d + 1 - ds.length) '0' ++ ds else ds
  let intPart := padded.take (padded.length - d)
  let fracPart := padded.drop (padded.length - d)
  (if negSign then "-" else "") ++ String.mk intPart ++
    (if d = 0 then "" else "." ++ String.mk fracPart)

/-- `str(Decimal)` (the to-scientific-string conversion) for an arbitrary
finite value, as `_convert_signs` produces it. -/
def renderPyDec (x : PyDec) : String :=
  let ds := Nat.toDigits 10 x.coeff
  let leftdigits : ℤ := x.exp + ds.length
  let body :=
    if x.exp ≤ 0 ∧ -5 ≤ leftdigits then
      -- no exponent: leftdigits digits before the point
      if leftdigits ≤ 0 then
        "0." ++ String.mk (List.replicate (-leftdigits).toNat '0') ++ String.mk ds
      else if x.exp = 0 then
        String.mk ds
      else
        String.mk (ds.take leftdigits.toNat) ++ "." ++ String.mk (ds.drop leftdigits.toNat)
    else
      -- scientific notation (never reached by the inputs of the claims)
      let adj := leftdigits - 1
      String.mk (ds.take 1) ++
        (if ds.length = 1 then "" else "." ++ String.mk (ds.drop 1)) ++
        "E" ++ (if 0 ≤ adj then "+" else "") ++ toString adj
  (if x.neg then "-" else "") ++ body

/-! ## functions.py -/

/-- The class `MINUTE_CHARACTERS_RE` substitutes.
Modelled from the spec: `geolucidate/constants.py` is not among the given
sources; §4.1 of the spec lists "apostrophe, U+2032 (prime), grave/acute
accents used as quotes, backtick" as the single-quote variants. -/
def minuteChars : List Char := ['\'', '′', '`', '´']

/-- The single-character double-quote variants of `SECOND_CHARACTERS_RE`.
Modelled from the spec: §4.1 lists "U+2033 (double prime), curly quotes"
(and the plain double quote itself); the remaining spec-listed variant,
the double backtick, is a two-character sequence handled by
`subSecondL`. -/
def secondChars : List Char := ['"', '″', '“', '”']

/-- The substitution of `re.sub(MINUTE_CHARACTERS_RE, "'", ...)`: a
one-character class, hence a character map. -/
def minuteChar (c : Char) : Char :=
  if c ∈ minuteChars then '\'' else c

/-- The substitution of `re.sub(SECOND_CHARACTERS_RE, '"', ...)`,
scanning left to right.  Modelled from the spec: besides the
single-character variants of `secondChars`, §4.1 lists the double
backtick as a double-quote variant.  The minute substitution has already
turned each backtick into an apostrophe when this one runs, so the
double-quote pattern recognizes the apostrophe pair (and a raw backtick
pair) as that variant; no single-character alternative matches an
apostrophe or backtick, so the scan order is unambiguous. -/
def subSecondL : List Char → List Char
  | [] => []
  | [c] => [if c ∈ secondChars then '"' else c]
  | c :: d :: rest =>
      if (c = '`' ∧ d = '`') ∨ (c = '\'' ∧ d = '\'') then '"' :: subSecondL rest
      else (if c ∈ secondChars then '"' else c) :: subSecondL (d :: rest)

/-- Python `str.strip()` on a character list. -/
def stripBoth (l : List Char) : List Char :=
  ((l.dropWhile isSpaceC).reverse.dropWhile isSpaceC).reverse

/-- `_normalize_string`: strip, then canonicalize single-quote variants,
then double-quote variants. -/
def normalizeString (s : String) : String :=
  String.mk (subSecondL ((stripBoth s.toList).map minuteChar))

/-- No two adjacent backticks and no two adjacent apostrophes: no
occurrence of the two-character double-quote variant. -/
def noDoubles : List Char → Bool
  | c :: d :: rest =>
      if (c = '`' ∧ d = '`') ∨ (c = '\'' ∧ d = '\'') then false
      else noDoubles (d :: rest)
  | _ => true

/-- Python truthiness of a `groupdict` entry. -/
def pyTruthy (o : Option String) : Bool :=
  match o with
  | some s => s ≠ ""
  | none => false

/-- Python `a or b` on `groupdict` entries. -/
def pyOr (a b : Option String) : Option String :=
  if pyTruthy a then a else b

/-- `x or '00'` on a `groupdict` entry. -/
def orDefault (o : Option String) (dflt : String) : String :=
  match o with
  | some s => if s = "" then dflt else s
  | none => dflt

/-- Python `s.upper()[0]`: first character of the uppercased string
(`none` models the `IndexError` on an empty string, which no participating
capture produces). -/
def pyUpperFirst (s : String) : Option Char :=
  (s.toList.map Char.toUpper).head?

/-- The 8 values `_cleanup` returns (directions may be `None`). -/
structure Cleaned where
  latdir : Option Char
  latdeg : Option String
  latmin : String
  latsec : String
  longdir : Option Char
  longdeg : Option String
  longmin : String
  longsec : String
  deriving Repr, DecidableEq

/-- `_cleanup(parts)`: normalize the capture mapping of
`degree_min_sec_re` to hemisphere letters, degrees, minutes and seconds. -/
def cleanup (g : Caps) : Cleaned :=
  let latsign := getCap g "latsign"
  let longsign := getCap g "longsign"
  let latdir0 := pyOr (getCap g "latdir") (getCap g "latdir2")
  let longdir0 := pyOr (getCap g "longdir") (getCap g "longdir2")
  let latdir : Option Char :=
    if pyTruthy latdir0 then pyUpperFirst (latdir0.getD "")
    else if latsign = some "-" then some 'S' else none
  let longdir : Option Char :=
    if pyTruthy longdir0 then pyUpperFirst (longdir0.getD "")
    else if longsign = some "-" then some 'W' else none
  let latmin := orDefault (getCap g "latmin") "00"
  let longmin := orDefault (getCap g "longmin") "00"
  let latdecsec := (getCap g "latdecsec").getD ""
  let longdecsec := (getCap g "longdecsec").getD ""
  if latdecsec ≠ "" ∧ longdecsec ≠ "" then
    { latdir := latdir, latdeg := getCap g "latdeg",
      latmin := latmin ++ latdecsec, latsec := "00",
      longdir := longdir, longdeg := getCap g "longdeg",
      longmin := longmin ++ longdecsec, longsec := "00" }
  else
    { latdir := latdir, latdeg := getCap g "latdeg",
      latmin := latmin, latsec := orDefault (getCap g "latsec") "00",
      longdir := longdir, longdeg := getCap g "longdeg",
      longmin := longmin, longsec := orDefault (getCap g "longsec") "00" }

/-- The quantization precision of `_convert_to_lat_lng`, in decimal
places, chosen from the field strings before numeric conversion. -/
def precisionOf (c : Cleaned) : ℕ :=
  if c.latsec ≠ "00" ∨ c.longsec ≠ "00" then 6
  else if c.latmin ≠ "00" ∨ c.longmin ≠ "00" then 3
  else 0

/-- One coordinate of `_convert_to_lat_lng` before sign and quantization:
`deg + (min + sec/divisor)/60` computed left to right in
`ExtendedContext`. -/
def ctxCoord (deg mn sec divisor : Frac) : Frac :=
  ctxAdd deg (ctxDiv (ctxAdd mn (ctxDiv sec divisor)) (fInt 60))

/-- Render one converted coordinate: the value (nonnegative for every
grammar-derived input) is negated when the hemisphere matches, then
quantized half-to-even to `d` places and printed in fixed notation.
Negating before quantizing equals quantizing the magnitude and carrying
the sign, because half-even rounding is symmetric; the sign flag also
reproduces `Decimal`'s negative zero (e.g. `"-0.000"`). -/
def renderCoord (negApplied : Bool) (v : Frac) (d : ℕ) : String :=
  let n := quantInt v d
  renderFixed (n < 0 || (negApplied && 0 ≤ n)) n.natAbs d

/-- `_convert_to_lat_lng`: convert a normalized 8-tuple to a pair of
quantized decimal-degree strings.  A `Decimal` constructor failure
(`latdeg` of `None`, unparsable text) is modelled as `none`. -/
def convertToLatLng (c : Cleaned) : Option (String × String) :=
  do
    let latdegS ← c.latdeg
    let longdegS ← c.longdeg
    let latdeg ← parseDec latdegS
    let latmin ← parseDec c.latmin
    let latsec ← parseDec c.latsec
    let longdeg ← parseDec longdegS
    let longmin ← parseDec c.longmin
    let longsec ← parseDec c.longsec
    let d := precisionOf c
    let divisor : Frac :=
      if fLt (fInt 59) latsec.val ∨ fLt (fInt 59) longsec.val then fInt 100 else fInt 60
    let latV := ctxCoord latdeg.val latmin.val latsec.val divisor
    let longV := ctxCoord longdeg.val longmin.val longsec.val divisor
    let latV := if c.latdir = some 'S' then fNeg latV else latV
    let longV := if c.longdir = some 'W' then fNeg longV else longV
    pure (renderCoord (c.latdir = some 'S') latV d,
          renderCoord (c.longdir = some 'W') longV d)

/-- `value * Decimal('-1')` in the thread default context (precision 28,
ROUND_HALF_EVEN): the sign flips and the exact product — whose
coefficient and ideal exponent are those of the operand — is rounded to
28 significant digits when the coefficient is longer, the exponent
absorbing the shed digits (with the usual carry normalization when
rounding up crosses a power of ten). -/
def pyDecMulNegOne (x : PyDec) : PyDec :=
  if numDigits x.coeff ≤ 28 then ⟨!x.neg, x.coeff, x.exp⟩
  else
    let k := numDigits x.coeff - 28
    let c1 := (rhe ⟨(x.coeff : ℤ), (10 : ℤ) ^ k⟩).toNat
    if numDigits c1 ≤ 28 then ⟨!x.neg, c1, x.exp + k⟩
    else ⟨!x.neg, c1 / 10, x.exp + k + 1⟩

/-- `_convert_signs`: resolve hemispheres of a decimal-degree match and
negate the raw decimal strings accordingly.  The only arithmetic is the
multiplication by `Decimal('-1')`, performed in the default context: a
non-negated value passes through at the captured precision, a negated one
is additionally rounded to 28 significant digits. -/
def convertSigns (g : Caps) : Option (String × String) :=
  let latdir := pyUpperFirst (orDefault (pyOr (getCap g "latdir") (getCap g "latdir2")) "N")
  let longdir := pyUpperFirst (orDefault (pyOr (getCap g "longdir") (getCap g "longdir2")) "S")
  do
    let latS ← getCap g "latitude"
    let longS ← getCap g "longitude"
    let lat ← parseDec latS
    let long ← parseDec longS
    let lat := if latdir = some 'S' ∨ latdir = some '-' then pyDecMulNegOne lat else lat
    let long := if longdir = some 'W' ∨ longdir = some '-' then pyDecMulNegOne long else long
    pure (renderPyDec lat, renderPyDec long)

/-- `retrieve_lat_long`: the decimal-degree pattern is tried on the raw
input; only on failure is the input normalized and the DMS pattern tried.
A failed second match raises (`match.groupdict()` on `None`), modelled as
`none`. -/
def retrieveLatLong (s : String) : Option (String × String) :=
  match reMatch decimalDegreeRe s with
  | some caps => convertSigns caps
  | none =>
      match reMatch degreeMinSecRe (normalizeString s) with
      | some caps => convertToLatLng (cleanup caps)
      | none => none

/-- `re.finditer` scanning: attempt the pattern at successive positions,
resuming after each match.  Results are (start, end, captures) in
position order. -/
def findIterAux (re : RE) (chars : List Char) : Nat → Nat → List (Nat × Nat × Caps)
  | _, 0 => []
  | pos, fuel + 1 =>
      if chars.length < pos then []
      else
        match (mall re (chars.drop pos) pos []).head? with
        | some r =>
            (pos, r.2.1, r.2.2) ::
              findIterAux re chars (if pos < r.2.1 then r.2.1 else pos + 1) fuel
        | none => findIterAux re chars (pos + 1) fuel

/-- All non-overlapping matches of `re` in `s`, leftmost first. -/
def findIter (re : RE) (s : String) : List (Nat × Nat × Caps) :=
  findIterAux re s.toList 0 (s.length + 1)

/-- `get_replacements`: normalize, scan with `degree_min_sec_re.finditer`,
convert each match.  The external link renderer only consumes the matched
text and the converted pair, so the model returns those. -/
def getReplacements (s : String) : List (String × Option (String × String)) :=
  let t := normalizeString s
  (findIter degreeMinSecRe t).map fun r =>
    (String.mk ((t.toList.drop r.1).take (r.2.1 - r.1)),
     convertToLatLng (cleanup r.2.2))

/-! ## Structural data about the patterns -/

/-- Names of the capture groups occurring in an AST. -/
def names : RE → List String
  | .seq a b => names a ++ names b
  | .alt a b => names a ++ names b
  | .opt a => names a
  | .group n a => n :: names a
  | .cond _ yes => names yes
  | .condElse _ yes no => names yes ++ names no
  | _ => []

/-- `setsName re n = true` guarantees that every successful parse of `re`
records a capture for `n`. -/
def setsName : RE → String → Bool
  | .seq a b, n => setsName a n || setsName b n
  | .alt a b, n => setsName a n && setsName b n
  | .group m a, n => m = n || setsName a n
  | .condElse _ yes no, n => setsName yes n && setsName no n
  | _, _ => false

/-! ## The specification's exact-arithmetic converter

For the refinement comparison of the conversion arithmetic only: the
specification (§4.5) prescribes *exact* decimal arithmetic followed by
one half-even quantization, where functions.py computes inside
`ExtendedContext` at 9 significant digits. -/

/-- Modelled from the spec (§4.5 steps 2–3): one coordinate as the exact
rational `degrees + (minutes + seconds/divisor) / 60`, with no
intermediate rounding. -/
def specExactCoord (deg mn sec divisor : Frac) : Frac :=
  fAdd deg (fDiv (fAdd mn (fDiv sec divisor)) (fInt 60))

/-- Modelled from the spec (§4.5): the converter with exact arithmetic —
identical to `convertToLatLng` except that the coordinate value is the
exact rational, quantized half-to-even only once at the end. -/
def specConvertExact (c : Cleaned) : Option (String × String) :=
  do
    let latdegS ← c.latdeg
    let longdegS ← c.longdeg
    let latdeg ← parseDec latdegS
    let latmin ← parseDec c.latmin
    let latsec ← parseDec c.latsec
    let longdeg ← parseDec longdegS
    let longmin ← parseDec c.longmin
    let longsec ← parseDec c.longsec
    let d := precisionOf c
    let divisor : Frac :=
      if fLt (fInt 59) latsec.val ∨ fLt (fInt 59) longsec.val then fInt 100 else fInt 60
    let latV := specExactCoord latdeg.val latmin.val latsec.val divisor
    let longV := specExactCoord longdeg.val longmin.val longsec.val divisor
    let latV := if c.latdir = some 'S' then fNeg latV else latV
    let longV := if c.longdir = some 'W' then fNeg longV else longV
    pure (renderCoord (c.latdir = some 'S') latV d,
          renderCoord (c.longdir = some 'W') longV d)

/-! ## Engine lemmas -/

theorem getCap_cons (m : String) (v : String) (c : Caps) (n : String) :
    getCap ((m, v) :: c) n = if m = n then some v else getCap c n := rfl

/-- Parsing touches only the capture groups named in the AST: any other
name keeps the capture it entered with. -/
theorem mall_frame (re : RE) : ∀ (s : List Char) (p : Nat) (c : Caps)
    (r : List Char × Nat × Caps), r ∈ mall re s p c →
    ∀ n, n ∉ names re → getCap r.2.2 n = getCap c n := by
  induction re with
  | eps =>
      intro s p c r hr n _
      simp only [mall, List.mem_singleton] at hr
      rw [hr]
  | cls f =>
      intro s p c r hr n _
      match s with
      | [] => simp [mall] at hr
      | x :: xs =>
          simp only [mall] at hr
          split at hr
          · simp only [List.mem_singleton] at hr; rw [hr]
          · simp at hr
  | litCI l =>
      intro s p c r hr n _
      simp only [mall] at hr
      split at hr
      · simp only [List.mem_singleton] at hr; rw [hr]
      · simp at hr
  | seq a b iha ihb =>
      intro s p c r hr n hn
      simp only [mall, List.mem_flatMap] at hr
      obtain ⟨m, hm, hr⟩ := hr
      simp only [names, List.mem_append] at hn
      push_neg at hn
      rw [ihb _ _ _ _ hr n hn.2, iha _ _ _ _ hm n hn.1]
  | alt a b iha ihb =>
      intro s p c r hr n hn
      simp only [mall, List.mem_append] at hr
      simp only [names, List.mem_append] at hn
      push_neg at hn
      rcases hr with hr | hr
      · exact iha _ _ _ _ hr n hn.1
      · exact ihb _ _ _ _ hr n hn.2
  | opt a iha =>
      intro s p c r hr n hn
      simp only [mall, List.mem_append, List.mem_singleton] at hr
      rcases hr with hr | hr
      · exact iha _ _ _ _ hr n hn
      · rw [hr]
  | rep f lo hi =>
      intro s p c r hr n _
      simp only [mall, List.mem_map] at hr
      obtain ⟨L, _, hL⟩ := hr
      rw [← hL]
  | group m a iha =>
      intro s p c r hr n hn
      simp only [mall, List.mem_map] at hr
      obtain ⟨q, hq, hqr⟩ := hr
      simp only [names, List.mem_cons] at hn
      push_neg at hn
      rw [← hqr]
      show getCap ((m, _) :: q.2.2) n = getCap c n
      rw [getCap_cons, if_neg (fun h => hn.1 h.symm)]
      exact iha _ _ _ _ hq n hn.2
  | cond m yes ihy =>
      intro s p c r hr n hn
      simp only [mall] at hr
      split at hr
      · exact ihy _ _ _ _ hr n hn
      · simp only [List.mem_singleton] at hr; rw [hr]
  | condElse m yes no ihy ihn =>
      intro s p c r hr n hn
      simp only [names, List.mem_append] at hn
      push_neg at hn
      simp only [mall] at hr
      split at hr
      · exact ihy _ _ _ _ hr n hn.1
      · exact ihn _ _ _ _ hr n hn.2
  | startAnchor =>
      intro s p c r hr n _
      simp only [mall] at hr
      split at hr
      · simp only [List.mem_singleton] at hr; rw [hr]
      · simp at hr
  | endAnchor =>
      intro s p c r hr n _
      simp only [mall] at hr
      split at hr
      · simp only [List.mem_singleton] at hr; rw [hr]
      · split at hr
        · simp only [List.mem_singleton] at hr; rw [hr]
        · simp at hr
      · simp at hr

/-- Captures are only ever added, never removed: a name that was set when
parsing started is still set in every result. -/
theorem mall_mono (re : RE) : ∀ (s : List Char) (p : Nat) (c : Caps)
    (r : List Char × Nat × Caps), r ∈ mall re s p c →
    ∀ n, (getCap c n).isSome → (getCap r.2.2 n).isSome := by
  induction re with
  | eps =>
      intro s p c r hr n hc
      simp only [mall, List.mem_singleton] at hr
      rw [hr]; exact hc
  | cls f =>
      intro s p c r hr n hc
      match s with
      | [] => simp [mall] at hr
      | x :: xs =>
          simp only [mall] at hr
          split at hr
          · simp only [List.mem_singleton] at hr; rw [hr]; exact hc
          · simp at hr
  | litCI l =>
      intro s p c r hr n hc
      simp only [mall] at hr
      split at hr
      · simp only [List.mem_singleton] at hr; rw [hr]; exact hc
      · simp at hr
  | seq a b iha ihb =>
      intro s p c r hr n hc
      simp only [mall, List.mem_flatMap] at hr
      obtain ⟨m, hm, hr⟩ := hr
      exact ihb _ _ _ _ hr n (iha _ _ _ _ hm n hc)
  | alt a b iha ihb =>
      intro s p c r hr n hc
      simp only [mall, List.mem_append] at hr
      rcases hr with hr | hr
      · exact iha _ _ _ _ hr n hc
      · exact ihb _ _ _ _ hr n hc
  | opt a iha =>
      intro s p c r hr n hc
      simp only [mall, List.mem_append, List.mem_singleton] at hr
      rcases hr with hr | hr
      · exact iha _ _ _ _ hr n hc
      · rw [hr]; exact hc
  | rep f lo hi =>
      intro s p c r hr n hc
      simp only [mall, List.mem_map] at hr
      obtain ⟨L, _, hL⟩ := hr
      rw [← hL]; exact hc
  | group m a iha =>
      intro s p c r hr n hc
      simp only [mall, List.mem_map] at hr
      obtain ⟨q, hq, hqr⟩ := hr
      rw [← hqr]
      show (getCap ((m, _) :: q.2.2) n).isSome
      rw [getCap_cons]
      split
      · simp
      · exact iha _ _ _ _ hq n hc
  | cond m yes ihy =>
      intro s p c r hr n hc
      simp only [mall] at hr
      split at hr
      · exact ihy _ _ _ _ hr n hc
      · simp only [List.mem_singleton] at hr; rw [hr]; exact hc
  | condElse m yes no ihy ihn =>
      intro s p c r hr n hc
      simp only [mall] at hr
      split at hr
      · exact ihy _ _ _ _ hr n hc
      · exact ihn _ _ _ _ hr n hc
  | startAnchor =>
      intro s p c r hr n hc
      simp only [mall] at hr
      split at hr
      · simp only [List.mem_singleton] at hr; rw [hr]; exact hc
      · simp at hr
  | endAnchor =>
      intro s p c r hr n hc
      simp only [mall] at hr
      split at hr
      · simp only [List.mem_singleton] at hr; rw [hr]; exact hc
      · split at hr
        · simp only [List.mem_singleton] at hr; rw [hr]; exact hc
        · simp at hr
      · simp at hr

/-- When `setsName re n` holds, every successful parse of `re` records a
capture for `n`. -/
theorem mall_sets (re : RE) : ∀ (s : List Char) (p : Nat) (c : Caps)
    (r : List Char × Nat × Caps), r ∈ mall re s p c →
    ∀ n, setsName re n = true → (getCap r.2.2 n).isSome := by
  induction re with
  | eps => intro s p c r _ n hs; simp [setsName] at hs
  | cls f => intro s p c r _ n hs; simp [setsName] at hs
  | litCI l => intro s p c r _ n hs; simp [setsName] at hs
  | seq a b iha ihb =>
      intro s p c r hr n hs
      simp only [mall, List.mem_flatMap] at hr
      obtain ⟨m, hm, hr⟩ := hr
      simp only [setsName, Bool.or_eq_true] at hs
      rcases hs with hs | hs
      · exact mall_mono b _ _ _ _ hr n (iha _ _ _ _ hm n hs)
      · exact ihb _ _ _ _ hr n hs
  | alt a b iha ihb =>
      intro s p c r hr n hs
      simp only [mall, List.mem_append] at hr
      simp only [setsName, Bool.and_eq_true] at hs
      rcases hr with hr | hr
      · exact iha _ _ _ _ hr n hs.1
      · exact ihb _ _ _ _ hr n hs.2
  | opt a iha => intro s p c r _ n hs; simp [setsName] at hs
  | rep f lo hi => intro s p c r _ n hs; simp [setsName] at hs
  | group m a iha =>
      intro s p c r hr n hs
      simp only [mall, List.mem_map] at hr
      obtain ⟨q, hq, hqr⟩ := hr
      rw [← hqr]
      show (getCap ((m, _) :: q.2.2) n).isSome
      rw [getCap_cons]
      simp only [setsName, Bool.or_eq_true, decide_eq_true_eq] at hs
      rcases hs with hs | hs
      · rw [if_pos hs]; simp
      · split
        · simp
        · exact iha _ _ _ _ hq n hs
  | cond m yes ihy => intro s p c r _ n hs; simp [setsName] at hs
  | condElse m yes no ihy ihn =>
      intro s p c r hr n hs
      simp only [setsName, Bool.and_eq_true] at hs
      simp only [mall] at hr
      split at hr
      · exact ihy _ _ _ _ hr n hs.1
      · exact ihn _ _ _ _ hr n hs.2
  | startAnchor => intro s p c r _ n hs; simp [setsName] at hs
  | endAnchor => intro s p c r _ n hs; simp [setsName] at hs

theorem mem_mall_seq {a b : RE} {s : List Char} {p : Nat} {c : Caps}
    {r : List Char × Nat × Caps} :
    r ∈ mall (.seq a b) s p c ↔ ∃ m ∈ mall a s p c, r ∈ mall b m.1 m.2.1 m.2.2 := by
  simp [mall]

theorem mem_mall_opt {a : RE} {s : List Char} {p : Nat} {c : Caps}
    {r : List Char × Nat × Caps} :
    r ∈ mall (.opt a) s p c ↔ r ∈ mall a s p c ∨ r = (s, p, c) := by
  simp [mall]

theorem mem_mall_group {n : String} {a : RE} {s : List Char} {p : Nat} {c : Caps}
    {r : List Char × Nat × Caps} :
    r ∈ mall (.group n a) s p c ↔
      ∃ q ∈ mall a s p c, r = (q.1, q.2.1, (n, String.mk (s.take (q.2.1 - p))) :: q.2.2) := by
  simp only [mall, List.mem_map]
  constructor
  · rintro ⟨q, hq, h⟩; exact ⟨q, hq, h.symm⟩
  · rintro ⟨q, hq, h⟩; exact ⟨q, hq, h.symm⟩

theorem mem_mall_cond {n : String} {yes : RE} {s : List Char} {p : Nat} {c : Caps}
    {r : List Char × Nat × Caps} :
    r ∈ mall (.cond n yes) s p c ↔
      ((getCap c n).isSome = true ∧ r ∈ mall yes s p c) ∨
      (getCap c n = none ∧ r = (s, p, c)) := by
  by_cases h : (getCap c n).isSome
  · simp [mall, h, Option.isSome_iff_ne_none.mp h]
  · simp [mall, h, Option.not_isSome_iff_eq_none.mp h]

/-- A match of `reMatch` comes from the head of the parse list and is in
particular a member of it. -/
theorem reMatch_mem {re : RE} {s : String} {caps : Caps}
    (h : reMatch re s = some caps) :
    ∃ r ∈ mall re s.toList 0 [], r.2.2 = caps := by
  unfold reMatch at h
  cases hh : (mall re s.toList 0 []).head? with
  | none => rw [hh] at h; simp at h
  | some r =>
      rw [hh] at h
      refine ⟨r, List.mem_of_mem_head? hh, ?_⟩
      simpa using h

/-- Minutes-level symmetry of `degree_min_sec_re`: in any match either
both coordinates carry a minutes group or neither does — the longitude
minutes/seconds block is matched exactly when the latitude one was. -/
theorem dms_minsec_sym (s : String) (caps : Caps)
    (h : reMatch degreeMinSecRe s = some caps) :
    ((getCap caps "latminsec").isSome ∧ (getCap caps "latmin").isSome ∧
     (getCap caps "longminsec").isSome ∧ (getCap caps "longmin").isSome) ∨
    (getCap caps "latminsec" = none ∧ getCap caps "latmin" = none ∧
     getCap caps "longminsec" = none ∧ getCap caps "longmin" = none) := by
  obtain ⟨r, hr, hcaps⟩ := reMatch_mem h
  rw [degreeMinSecRe] at hr
  rw [mem_mall_seq] at hr
  obtain ⟨m1, hm1, hr⟩ := hr
  rw [mem_mall_seq] at hr
  obtain ⟨m2, hm2, hr⟩ := hr
  rw [mem_mall_seq] at hr
  obtain ⟨m3, hm3, hr⟩ := hr
  rw [mem_mall_seq] at hr
  obtain ⟨m4, hm4, hr⟩ := hr
  -- captures after `dmsA1` have none of the four names
  have e1lms : getCap m1.2.2 "latminsec" = none :=
    mall_frame dmsA1 _ _ _ _ hm1 "latminsec" (by decide)
  have e1lm : getCap m1.2.2 "latmin" = none :=
    mall_frame dmsA1 _ _ _ _ hm1 "latmin" (by decide)
  have e1Lms : getCap m1.2.2 "longminsec" = none :=
    mall_frame dmsA1 _ _ _ _ hm1 "longminsec" (by decide)
  have e1Lm : getCap m1.2.2 "longmin" = none :=
    mall_frame dmsA1 _ _ _ _ hm1 "longmin" (by decide)
  -- `dmsA2` mentions none of the four names
  have e3lms : getCap m3.2.2 "latminsec" = getCap m2.2.2 "latminsec" :=
    mall_frame dmsA2 _ _ _ _ hm3 "latminsec" (by decide)
  have e3lm : getCap m3.2.2 "latmin" = getCap m2.2.2 "latmin" :=
    mall_frame dmsA2 _ _ _ _ hm3 "latmin" (by decide)
  have e3Lms : getCap m3.2.2 "longminsec" = getCap m2.2.2 "longminsec" :=
    mall_frame dmsA2 _ _ _ _ hm3 "longminsec" (by decide)
  have e3Lm : getCap m3.2.2 "longmin" = getCap m2.2.2 "longmin" :=
    mall_frame dmsA2 _ _ _ _ hm3 "longmin" (by decide)
  -- `dmsA3` mentions none of the four names
  have e5lms : getCap caps "latminsec" = getCap m4.2.2 "latminsec" := by
    rw [← hcaps]; exact mall_frame dmsA3 _ _ _ _ hr "latminsec" (by decide)
  have e5lm : getCap caps "latmin" = getCap m4.2.2 "latmin" := by
    rw [← hcaps]; exact mall_frame dmsA3 _ _ _ _ hr "latmin" (by decide)
  have e5Lms : getCap caps "longminsec" = getCap m4.2.2 "longminsec" := by
    rw [← hcaps]; exact mall_frame dmsA3 _ _ _ _ hr "longminsec" (by decide)
  have e5Lm : getCap caps "longmin" = getCap m4.2.2 "longmin" := by
    rw [← hcaps]; exact mall_frame dmsA3 _ _ _ _ hr "longmin" (by decide)
  -- case split on the latitude minutes group
  rw [dmsLatMS, mem_mall_opt] at hm2
  rw [dmsLongMS, mem_mall_cond] at hm4
  rcases hm2 with hm2 | hm2
  · -- latitude minutes present
    rw [mem_mall_group] at hm2
    obtain ⟨q, hq, hm2⟩ := hm2
    have h2lms : (getCap m2.2.2 "latminsec").isSome := by
      rw [hm2]; simp [getCap_cons]
    have h2lm : (getCap m2.2.2 "latmin").isSome := by
      rw [hm2]
      show (getCap (("latminsec", _) :: q.2.2) "latmin").isSome
      rw [getCap_cons, if_neg (by decide)]
      exact mall_sets _ _ _ _ _ hq "latmin" (by decide)
    rcases hm4 with ⟨_, hm4⟩ | ⟨hnone, _⟩
    · -- the conditional entered the longitude minutes block
      left
      have h4Lms : (getCap m4.2.2 "longminsec").isSome :=
        mall_sets _ _ _ _ _ hm4 "longminsec" (by decide)
      have h4Lm : (getCap m4.2.2 "longmin").isSome :=
        mall_sets _ _ _ _ _ hm4 "longmin" (by decide)
      have h4lms : (getCap m4.2.2 "latminsec").isSome :=
        mall_mono _ _ _ _ _ hm4 "latminsec" (by rw [e3lms]; exact h2lms)
      have h4lm : (getCap m4.2.2 "latmin").isSome :=
        mall_mono _ _ _ _ _ hm4 "latmin" (by rw [e3lm]; exact h2lm)
      rw [e5lms, e5lm, e5Lms, e5Lm]
      exact ⟨h4lms, h4lm, h4Lms, h4Lm⟩
    · -- contradiction: the guard saw the group that was just matched
      rw [e3lms] at hnone
      rw [hnone] at h2lms
      simp at h2lms
  · -- no latitude minutes: the conditional must have been skipped
    have h2lms : getCap m2.2.2 "latminsec" = none := by rw [hm2]; exact e1lms
    have h2lm : getCap m2.2.2 "latmin" = none := by rw [hm2]; exact e1lm
    have h2Lms : getCap m2.2.2 "longminsec" = none := by rw [hm2]; exact e1Lms
    have h2Lm : getCap m2.2.2 "longmin" = none := by rw [hm2]; exact e1Lm
    rcases hm4 with ⟨hsome, _⟩ | ⟨_, hm4⟩
    · rw [e3lms, h2lms] at hsome
      simp at hsome
    · right
      have h4 : m4.2.2 = m3.2.2 := by rw [hm4]
      rw [e5lms, e5lm, e5Lms, e5Lm, h4, e3lms, e3lm, e3Lms, e3Lm]
      exact ⟨h2lms, h2lm, h2Lms, h2Lm⟩

/-! ## Normalizer lemmas -/

theorem minuteChar_mem {c : Char} (h : c ∈ minuteChars) : minuteChar c = '\'' := by
  unfold minuteChar
  rw [if_pos h]

theorem minuteChar_not_mem {c : Char} (h : c ∉ minuteChars) : minuteChar c = c := by
  unfold minuteChar
  rw [if_neg h]

theorem minuteChar_idem (c : Char) : minuteChar (minuteChar c) = minuteChar c := by
  by_cases h : c ∈ minuteChars
  · rw [minuteChar_mem h, minuteChar_mem (by decide)]
  · rw [minuteChar_not_mem h, minuteChar_not_mem h]

/-- The substituted character is never whitespace and non-whitespace
characters stay non-whitespace: the substitution cannot create or destroy
padding that `strip` would remove. -/
theorem isSpaceC_minuteChar (c : Char) : isSpaceC (minuteChar c) = isSpaceC c := by
  by_cases h : c ∈ minuteChars
  · rw [minuteChar_mem h]
    have hc : isSpaceC c = false := by fin_cases h <;> decide
    rw [hc]; decide
  · rw [minuteChar_not_mem h]

/-- The double-quote substitution consumes input: empty output only on
empty input. -/
theorem subSecondL_nil_iff (l : List Char) : subSecondL l = [] ↔ l = [] := by
  match l with
  | [] => simp [subSecondL]
  | [c] => simp [subSecondL]
  | c :: d :: rest =>
      simp only [subSecondL]
      split <;> simp

/-- Every output character is either the substituted `"` or one of the
input's characters. -/
theorem subSecondL_chars : ∀ (l : List Char) (c : Char), c ∈ subSecondL l → c = '"' ∨ c ∈ l
  | [], c => by simp [subSecondL]
  | [a], c => by
      simp only [subSecondL, List.mem_singleton]
      intro hc
      by_cases ha : a ∈ secondChars
      · rw [if_pos ha] at hc; exact Or.inl hc
      · rw [if_neg ha] at hc; exact Or.inr (by simp [hc])
  | a :: b :: rest, c => by
      simp only [subSecondL]
      split
      · intro hc
        rcases List.mem_cons.mp hc with hc | hc
        · exact Or.inl hc
        · rcases subSecondL_chars rest c hc with hc | hc
          · exact Or.inl hc
          · exact Or.inr (by simp [hc])
      · intro hc
        rcases List.mem_cons.mp hc with hc | hc
        · by_cases ha : a ∈ secondChars
          · rw [if_pos ha] at hc; exact Or.inl hc
          · rw [if_neg ha] at hc; exact Or.inr (by simp [hc])
        · rcases subSecondL_chars (b :: rest) c hc with hc | hc
          · exact Or.inl hc
          · exact Or.inr (List.mem_cons_of_mem a hc)

/-- Single-character double-quote variants never survive the
substitution: a second-class character of the output is the plain `"`. -/
theorem subSecondL_second : ∀ (l : List Char) (c : Char),
    c ∈ subSecondL l → c ∈ secondChars → c = '"'
  | [], c => by simp [subSecondL]
  | [a], c => by
      simp only [subSecondL, List.mem_singleton]
      intro hc hsec
      by_cases ha : a ∈ secondChars
      · rw [if_pos ha] at hc; exact hc
      · rw [if_neg ha] at hc; exact absurd (hc ▸ hsec) ha
  | a :: b :: rest, c => by
      simp only [subSecondL]
      split
      · intro hc hsec
        rcases List.mem_cons.mp hc with hc | hc
        · exact hc
        · exact subSecondL_second rest c hc hsec
      · intro hc hsec
        rcases List.mem_cons.mp hc with hc | hc
        · by_cases ha : a ∈ secondChars
          · rw [if_pos ha] at hc; exact hc
          · rw [if_neg ha] at hc; exact absurd (hc ▸ hsec) ha
        · exact subSecondL_second (b :: rest) c hc hsec

/-- The output of the substitution on a nonempty input starts with `"` or
with the input's first character. -/
theorem subSecondL_cons_shape (d : Char) (rest : List Char) :
    ∃ e tail, subSecondL (d :: rest) = e :: tail ∧ (e = '"' ∨ e = d) := by
  match rest with
  | [] =>
      refine ⟨if d ∈ secondChars then '"' else d, [], rfl, ?_⟩
      split
      · exact Or.inl rfl
      · exact Or.inr rfl
  | b :: r =>
      simp only [subSecondL]
      split
      · exact ⟨'"', subSecondL r, rfl, Or.inl rfl⟩
      · refine ⟨if d ∈ secondChars then '"' else d, subSecondL (b :: r), rfl, ?_⟩
        split
        · exact Or.inl rfl
        · exact Or.inr rfl

theorem noDoubles_cons {e f : Char} {t : List Char}
    (hpair : ¬((e = '`' ∧ f = '`') ∨ (e = '\'' ∧ f = '\'')))
    (ht : noDoubles (f :: t) = true) : noDoubles (e :: f :: t) = true := by
  simp only [noDoubles]
  rw [if_neg hpair]
  exact ht

/-- The substitution's output never contains an apostrophe pair or a
backtick pair: each pair of the input was consumed, and an emitted
apostrophe or backtick is always followed by a different character. -/
theorem subSecondL_noDoubles : ∀ l : List Char, noDoubles (subSecondL l) = true
  | [] => rfl
  | [a] => by
      show noDoubles [if a ∈ secondChars then '"' else a] = true
      rfl
  | a :: b :: rest => by
      simp only [subSecondL]
      split
      · -- a pair was consumed and replaced by one `"`
        cases hout : subSecondL rest with
        | nil => rfl
        | cons f tf =>
            refine noDoubles_cons ?_ (hout ▸ subSecondL_noDoubles rest)
            rintro (⟨h, _⟩ | ⟨h, _⟩) <;> exact absurd h (by decide)
      · rename_i hpair
        cases hout : subSecondL (b :: rest) with
        | nil => exact absurd ((subSecondL_nil_iff _).mp hout) (by simp)
        | cons f tf =>
            obtain ⟨e', tail, he, hshape⟩ := subSecondL_cons_shape b rest
            rw [hout] at he
            obtain ⟨hef, -⟩ := List.cons.inj he
            refine noDoubles_cons ?_ (hout ▸ subSecondL_noDoubles (b :: rest))
            by_cases ha : a ∈ secondChars
            · rw [if_pos ha]
              rintro (⟨h, _⟩ | ⟨h, _⟩) <;> exact absurd h (by decide)
            · rw [if_neg ha]
              rcases hshape with hf | hf
              · rw [hef, hf]
                rintro (⟨_, h⟩ | ⟨_, h⟩) <;> exact absurd h (by decide)
              · rw [hef, hf]
                exact hpair

/-- On input free of double-quote variants — no second-class character,
no apostrophe or backtick pair — the substitution changes nothing. -/
theorem subSecondL_fix : ∀ l : List Char, noDoubles l = true →
    (∀ c ∈ l, c ∈ secondChars → c = '"') → subSecondL l = l
  | [], _, _ => rfl
  | [a], _, hsec => by
      show [if a ∈ secondChars then '"' else a] = [a]
      by_cases ha : a ∈ secondChars
      · rw [if_pos ha, hsec a (by simp) ha]
      · rw [if_neg ha]
  | a :: b :: rest, hnd, hsec => by
      have hpair : ¬((a = '`' ∧ b = '`') ∨ (a = '\'' ∧ b = '\'')) := by
        intro h
        simp only [noDoubles, if_pos h] at hnd
        exact absurd hnd (by decide)
      have hnd' : noDoubles (b :: rest) = true := by
        simpa only [noDoubles, if_neg hpair] using hnd
      show subSecondL (a :: b :: rest) = a :: b :: rest
      simp only [subSecondL]
      rw [if_neg hpair]
      have ha : (if a ∈ secondChars then '"' else a) = a := by
        by_cases h : a ∈ secondChars
        · rw [if_pos h, hsec a (by simp) h]
        · rw [if_neg h]
      rw [ha, subSecondL_fix (b :: rest) hnd' (fun c hc => hsec c (List.mem_cons_of_mem a hc))]

theorem getLast?_cons_of_ne_nil {c : Char} {x : List Char} (h : x ≠ []) :
    (c :: x).getLast? = x.getLast? := by
  cases x with
  | nil => exact absurd rfl h
  | cons y ys => rfl

/-- The last output character is `"` or the last input character. -/
theorem subSecondL_getLast : ∀ (l : List Char) (a : Char),
    (subSecondL l).getLast? = some a → a = '"' ∨ l.getLast? = some a
  | [], a => by simp [subSecondL]
  | [c], a => by
      show [if c ∈ secondChars then '"' else c].getLast? = some a → _
      intro h
      simp only [List.getLast?_singleton, Option.some.injEq] at h
      by_cases hc : c ∈ secondChars
      · rw [if_pos hc] at h; exact Or.inl h.symm
      · rw [if_neg hc] at h; exact Or.inr (by simp [h])
  | c :: d :: rest, a => by
      simp only [subSecondL]
      split
      · intro h
        cases hout : subSecondL rest with
        | nil =>
            rw [hout] at h
            simp only [List.getLast?_singleton, Option.some.injEq] at h
            exact Or.inl h.symm
        | cons f tf =>
            rw [hout, getLast?_cons_of_ne_nil (by simp)] at h
            have hrest : rest ≠ [] := by
              intro hr
              rw [hr] at hout
              simp [subSecondL] at hout
            rcases subSecondL_getLast rest a (hout ▸ h) with h | h
            · exact Or.inl h
            · refine Or.inr ?_
              rw [getLast?_cons_of_ne_nil (by simp), getLast?_cons_of_ne_nil hrest]
              exact h
      · intro h
        have hne : subSecondL (d :: rest) ≠ [] := by
          intro hr
          exact absurd ((subSecondL_nil_iff _).mp hr) (by simp)
        rw [getLast?_cons_of_ne_nil hne] at h
        rcases subSecondL_getLast (d :: rest) a h with h | h
        · exact Or.inl h
        · refine Or.inr ?_
          rw [getLast?_cons_of_ne_nil (by simp)]
          exact h

/-- The first character surviving `dropWhile` fails the predicate. -/
theorem head?_dropWhile (p : Char → Bool) : ∀ (l : List Char) (a : Char),
    (l.dropWhile p).head? = some a → p a = false
  | [], a => by simp
  | c :: t, a => by
      intro h
      by_cases hc : p c
      · rw [List.dropWhile_cons, if_pos hc] at h
        exact head?_dropWhile p t a h
      · rw [List.dropWhile_cons, if_neg hc] at h
        simp only [List.head?_cons, Option.some.injEq] at h
        rw [← h]
        exact Bool.of_not_eq_true hc

/-- `strip` leaves no leading whitespace. -/
theorem stripBoth_head {l : List Char} {a : Char}
    (h : (stripBoth l).head? = some a) : isSpaceC a = false := by
  unfold stripBoth at h
  rw [List.head?_reverse] at h
  set w := (l.dropWhile isSpaceC).reverse.dropWhile isSpaceC with hw
  have hsplit : (l.dropWhile isSpaceC).reverse.takeWhile isSpaceC ++ w =
      (l.dropWhile isSpaceC).reverse := List.takeWhile_append_dropWhile isSpaceC _
  have hwne : w ≠ [] := by
    intro hnil
    rw [hnil] at h
    simp at h
  have hlast : (l.dropWhile isSpaceC).reverse.getLast? = some a := by
    rw [← hsplit, List.getLast?_append_of_ne_nil _ hwne]
    exact h
  rw [List.getLast?_reverse] at hlast
  exact head?_dropWhile isSpaceC l a hlast

/-- `strip` leaves no trailing whitespace. -/
theorem stripBoth_last {l : List Char} {a : Char}
    (h : (stripBoth l).getLast? = some a) : isSpaceC a = false := by
  unfold stripBoth at h
  rw [List.getLast?_reverse] at h
  exact head?_dropWhile isSpaceC _ a h

/-- A list already free of leading and trailing whitespace is fixed by
`strip`. -/
theorem stripBoth_of_ends {l : List Char}
    (hh : ∀ a, l.head? = some a → isSpaceC a = false)
    (hl : ∀ a, l.getLast? = some a → isSpaceC a = false) : stripBoth l = l := by
  have h1 : l.dropWhile isSpaceC = l := by
    cases l with
    | nil => rfl
    | cons c t =>
        rw [List.dropWhile_cons, if_neg (by simp [hh c rfl])]
  unfold stripBoth
  rw [h1]
  have h2 : l.reverse.dropWhile isSpaceC = l.reverse := by
    cases hrev : l.reverse with
    | nil => rfl
    | cons c t =>
        rw [List.dropWhile_cons, if_neg ?_]
        have : l.getLast? = some c := by
          rw [← List.head?_reverse, hrev]; rfl
        simp [hl c this]
  rw [h2, List.reverse_reverse]

/-- `_normalize_string` as a list computation. -/
theorem normalizeString_toList (s : String) :
    (normalizeString s).toList = subSecondL ((stripBoth s.toList).map minuteChar) := rfl

theorem normalizeString_idem (s : String) :
    normalizeString (normalizeString s) = normalizeString s := by
  set t := stripBoth s.toList with hdt
  set v := t.map minuteChar with hdv
  set u := subSecondL v with hdu
  -- ends of `v` are non-whitespace
  have hvhead : ∀ a, v.head? = some a → isSpaceC a = false := by
    intro a ha
    rw [hdv, List.head?_map] at ha
    cases ht : t.head? with
    | none => rw [ht] at ha; simp at ha
    | some b =>
        rw [ht] at ha
        have ha' : minuteChar b = a := Option.some.inj ha
        rw [← ha', isSpaceC_minuteChar]
        exact stripBoth_head (hdt ▸ ht)
  have hvlast : ∀ a, v.getLast? = some a → isSpaceC a = false := by
    intro a ha
    rw [hdv, List.getLast?_map] at ha
    cases ht : t.getLast? with
    | none => rw [ht] at ha; simp at ha
    | some b =>
        rw [ht] at ha
        have ha' : minuteChar b = a := Option.some.inj ha
        rw [← ha', isSpaceC_minuteChar]
        exact stripBoth_last (hdt ▸ ht)
  -- hence the ends of `u` are non-whitespace: `strip` fixes `u`
  have hstrip : stripBoth u = u := by
    refine stripBoth_of_ends ?_ ?_
    · intro a ha
      cases hv : v with
      | nil => rw [hdu, hv] at ha; simp [subSecondL] at ha
      | cons d rest =>
          obtain ⟨e, tail, he, hshape⟩ := subSecondL_cons_shape d rest
          rw [hdu, hv, he] at ha
          simp only [List.head?_cons, Option.some.injEq] at ha
          rcases hshape with hf | hf
          · rw [← ha, hf]; decide
          · rw [← ha, hf]
            exact hvhead d (by rw [hv]; rfl)
    · intro a ha
      rcases subSecondL_getLast v a (hdu ▸ ha) with h | h
      · rw [h]; decide
      · exact hvlast a h
  -- the minute map fixes `u`
  have hmc : u.map minuteChar = u := by
    have hfix : ∀ c ∈ u, minuteChar c = c := by
      intro c hc
      rcases subSecondL_chars v c (hdu ▸ hc) with h | h
      · rw [h]; decide
      · rw [hdv] at h
        obtain ⟨c0, -, hc0⟩ := List.mem_map.mp h
        rw [← hc0, minuteChar_idem]
    calc u.map minuteChar = u.map id := List.map_congr_left fun c hc => hfix c hc
    _ = u := List.map_id u
  -- the double-quote substitution fixes `u`
  have hsub : subSecondL u = u :=
    subSecondL_fix u (hdu ▸ subSecondL_noDoubles v)
      (fun c hc hsec => subSecondL_second v c (hdu ▸ hc) hsec)
  show String.mk (subSecondL ((stripBoth (normalizeString s).toList).map minuteChar)) = _
  have htl : (normalizeString s).toList = u := rfl
  rw [htl, hstrip, hmc, hsub]
  rfl

/-! ## Rendering lemmas -/

/-- For a positive precision the rendered string is sign, integer part, a
point, and exactly `d` fraction digits — fixed-decimal with trailing
zeros preserved. -/
theorem renderFixed_shape (b : Bool) (m d : ℕ) (hd : 0 < d) :
    ∃ ip fp : List Char,
      renderFixed b m d =
        (if b then "-" else "") ++ String.mk ip ++ ("." ++ String.mk fp) ∧
      fp.length = d := by
  have hd0 : ¬d = 0 := Nat.pos_iff_ne_zero.mp hd
  refine ⟨?_, ?_, ?_, ?_⟩
  case _ =>
    exact (if (Nat.toDigits 10 m).length < d + 1 then
        List.replicate (d + 1 - (Nat.toDigits 10 m).length) '0' ++ Nat.toDigits 10 m
      else Nat.toDigits 10 m).take
      ((if (Nat.toDigits 10 m).length < d + 1 then
        List.replicate (d + 1 - (Nat.toDigits 10 m).length) '0' ++ Nat.toDigits 10 m
      else Nat.toDigits 10 m).length - d)
  case _ =>
    exact (if (Nat.toDigits 10 m).length < d + 1 then
        List.replicate (d + 1 - (Nat.toDigits 10 m).length) '0' ++ Nat.toDigits 10 m
      else Nat.toDigits 10 m).drop
      ((if (Nat.toDigits 10 m).length < d + 1 then
        List.replicate (d + 1 - (Nat.toDigits 10 m).length) '0' ++ Nat.toDigits 10 m
      else Nat.toDigits 10 m).length - d)
  case _ =>
    simp only [renderFixed]
    rw [if_neg hd0]
  case _ =>
    rw [List.length_drop]
    have hlen : d + 1 ≤ (if (Nat.toDigits 10 m).length < d + 1 then
        List.replicate (d + 1 - (Nat.toDigits 10 m).length) '0' ++ Nat.toDigits 10 m
      else Nat.toDigits 10 m).length := by
      split
      · rw [List.length_append, List.length_replicate]; omega
      · omega
    omega

/-- Reduction of the `Option` monad's bind on a present value, as the
`do` blocks of functions.py use it. -/
theorem bindSome {α β : Type} (a : α) (f : α → Option β) :
    (some a >>= f) = f a := rfl

/-! ## The claims -/

/-- C1: the claim (from the `get_replacements` docstring and the test
suite) is that scanning `"4630 NORTH 5705 WEST 58147N/07720W"` yields two
matches with coordinates ("46.500", "-57.083") and ("58.235278",
"-77.333333").  The code cannot do that: `degree_min_sec_re` is anchored
with `^...$`, so `finditer` can only ever produce a single whole-string
match, and this string as a whole does not match — `get_replacements`
returns no matches at all.  Each fragment on its own does parse to
exactly the claimed coordinates, confirming the two pairs are what the
scan was supposed to produce. -/
theorem c1_scan_finds_nothing :
    getReplacements "4630 NORTH 5705 WEST 58147N/07720W" = [] ∧
    retrieveLatLong "4630 NORTH 5705 WEST" = some ("46.500", "-57.083") ∧
    retrieveLatLong "58147N/07720W" = some ("58.235278", "-77.333333") := by
  refine ⟨by decide, by decide, by decide⟩

/-- C2: if either seconds value exceeds 59 then BOTH coordinates are
converted with divisor 100 instead of 60 (one shared decision), and the
documented example evaluates to ("50.459167", "-127.460833") through the
whole pipeline. -/
theorem c2_seconds_over_59_divides_both_by_100 :
    (∀ (c : Cleaned) (lds lods : String) (a1 a2 a3 b1 b2 b3 : PyDec),
      c.latdeg = some lds → c.longdeg = some lods →
      parseDec lds = some a1 → parseDec c.latmin = some a2 →
      parseDec c.latsec = some a3 → parseDec lods = some b1 →
      parseDec c.longmin = some b2 → parseDec c.longsec = some b3 →
      (fLt (fInt 59) a3.val ∨ fLt (fInt 59) b3.val) →
      convertToLatLng c = some
        (renderCoord (c.latdir = some 'S')
          (if c.latdir = some 'S' then fNeg (ctxCoord a1.val a2.val a3.val (fInt 100))
           else ctxCoord a1.val a2.val a3.val (fInt 100)) (precisionOf c),
         renderCoord (c.longdir = some 'W')
          (if c.longdir = some 'W' then fNeg (ctxCoord b1.val b2.val b3.val (fInt 100))
           else ctxCoord b1.val b2.val b3.val (fInt 100)) (precisionOf c))) ∧
    retrieveLatLong "50 27 55 N 127 27 65 W" = some ("50.459167", "-127.460833") := by
  constructor
  · intro c lds lods a1 a2 a3 b1 b2 b3 h1 h2 h3 h4 h5 h6 h7 h8 h9
    unfold convertToLatLng
    simp only [h1, h2, bindSome, h3, h4, h5, h6, h7, h8, if_pos h9]
    rfl
  · decide

/-- Witness for C2: the shared-divisor rule applied to the normalized
tuple of `"50 27 55 N 127 27 65 W"` yields the documented strings. -/
theorem c2_witness :
    convertToLatLng ⟨some 'N', some "50", "27", "55", some 'W', some "127", "27", "65"⟩ =
      some ("50.459167", "-127.460833") :=
  (c2_seconds_over_59_divides_both_by_100.1
    ⟨some 'N', some "50", "27", "55", some 'W', some "127", "27", "65"⟩
    "50" "127" _ _ _ _ _ _ rfl rfl rfl rfl rfl rfl rfl rfl
    (by decide)).trans (by decide)

/-- C3, counterexample: the conversion arithmetic is not exact — it runs
in `ExtendedContext` at 9 significant digits.  On the reachable tuple
(N, 43, 00, 0.0019, W, 100, 00, 00) the exact value 43.0000005277…
quantizes to 43.000001, but the context arithmetic rounds the latitude to
43.0000005 first and the half-even quantization then returns 43.000000 —
which is what the full pipeline produces. -/
theorem c3_counterexample :
    convertToLatLng ⟨some 'N', some "43", "00", "0.0019", some 'W', some "100", "00", "00"⟩ =
      some ("43.000000", "-100.000000") ∧
    specConvertExact ⟨some 'N', some "43", "00", "0.0019", some 'W', some "100", "00", "00"⟩ =
      some ("43.000001", "-100.000000") ∧
    retrieveLatLong "43 00 0.0019 N 100 00 00 W" = some ("43.000000", "-100.000000") := by
  refine ⟨by decide, by decide, by decide⟩

/-- C3, amended: the precision is chosen from the field strings (6 places
if a seconds field differs from "00", else 3 if a minutes field does,
else 0); each coordinate is computed by the 9-significant-digit
half-even context arithmetic, quantized half-to-even to that precision,
and rendered as a fixed-decimal string whose fraction part has exactly
that many digits (trailing zeros preserved, no scientific notation). -/
theorem c3_amended_context_arithmetic :
    (∀ (c : Cleaned) (lds lods : String) (a1 a2 a3 b1 b2 b3 : PyDec),
      c.latdeg = some lds → c.longdeg = some lods →
      parseDec lds = some a1 → parseDec c.latmin = some a2 →
      parseDec c.latsec = some a3 → parseDec lods = some b1 →
      parseDec c.longmin = some b2 → parseDec c.longsec = some b3 →
      convertToLatLng c = some
        (renderCoord (c.latdir = some 'S')
          (if c.latdir = some 'S' then
            fNeg (ctxCoord a1.val a2.val a3.val
              (if fLt (fInt 59) a3.val ∨ fLt (fInt 59) b3.val then fInt 100 else fInt 60))
           else ctxCoord a1.val a2.val a3.val
              (if fLt (fInt 59) a3.val ∨ fLt (fInt 59) b3.val then fInt 100 else fInt 60))
          (precisionOf c),
         renderCoord (c.longdir = some 'W')
          (if c.longdir = some 'W' then
            fNeg (ctxCoord b1.val b2.val b3.val
              (if fLt (fInt 59) a3.val ∨ fLt (fInt 59) b3.val then fInt 100 else fInt 60))
           else ctxCoord b1.val b2.val b3.val
              (if fLt (fInt 59) a3.val ∨ fLt (fInt 59) b3.val then fInt 100 else fInt 60))
          (precisionOf c))) ∧
    (∀ (b : Bool) (m d : ℕ), 0 < d →
      ∃ ip fp : List Char,
        renderFixed b m d =
          (if b then "-" else "") ++ String.mk ip ++ ("." ++ String.mk fp) ∧
        fp.length = d) := by
  constructor
  · intro c lds lods a1 a2 a3 b1 b2 b3 h1 h2 h3 h4 h5 h6 h7 h8
    unfold convertToLatLng
    simp only [h1, h2, bindSome, h3, h4, h5, h6, h7, h8]
    rfl
  · exact renderFixed_shape

/-- Witness for C3 (amended): the context-arithmetic description applied
to the tuple of the counterexample input, evaluated to its literal
output. -/
theorem c3_witness :
    convertToLatLng ⟨some 'N', some "43", "00", "0.0019", some 'W', some "100", "00", "00"⟩ =
      some ("43.000000", "-100.000000") :=
  (c3_amended_context_arithmetic.1
    ⟨some 'N', some "43", "00", "0.0019", some 'W', some "100", "00", "00"⟩
    "43" "100" _ _ _ _ _ _ rfl rfl rfl rfl rfl rfl rfl rfl).trans (by decide)

/-- C4: when neither grammar recognizes the input, `retrieve_lat_long`
fails (the `AttributeError` on the failed match, modelled as `none`)
rather than returning a default pair; and the two documented false
positives are rejected by the DMS grammar. -/
theorem c4_no_match_is_failure :
    (∀ s : String, reMatch decimalDegreeRe s = none →
      reMatch degreeMinSecRe (normalizeString s) = none →
      retrieveLatLong s = none) ∧
    reMatch degreeMinSecRe "GGN7383 was" = none ∧
    reMatch degreeMinSecRe "6830N 70W" = none ∧
    retrieveLatLong "GGN7383 was" = none ∧
    retrieveLatLong "6830N 70W" = none := by
  refine ⟨?_, by decide, by decide, by decide, by decide⟩
  intro s h1 h2
  unfold retrieveLatLong
  rw [h1, h2]

/-- Witness for C4: the failure rule applied to the first documented
false positive. -/
theorem c4_witness : retrieveLatLong "GGN7383 was" = none :=
  c4_no_match_is_failure.1 "GGN7383 was" (by decide) (by decide)

/-- C5, counterexample: the grammar does NOT reject every
mixed-granularity pair.  `"52 42 30 N 124 50 W"` — latitude with seconds,
longitude without — matches (`latsec` captured, `longsec` absent) and is
converted with the longitude seconds defaulted to "00". -/
theorem c5_counterexample :
    ((reMatch degreeMinSecRe "52 42 30 N 124 50 W").map
      (fun g => ((getCap g "latsec").isSome, (getCap g "longsec").isSome))) =
      some (true, false) ∧
    retrieveLatLong "52 42 30 N 124 50 W" = some ("52.708333", "-124.833333") := by
  refine ⟨by decide, by decide⟩

/-- C5, amended: the symmetry the grammar enforces is at the minutes
level only — in every match latitude carries a minutes group iff the
longitude does (`latminsec`/`longminsec`, `latmin`/`longmin`); the
seconds may be present on one side only. -/
theorem c5_amended_minutes_symmetry (s : String) (caps : Caps)
    (h : reMatch degreeMinSecRe s = some caps) :
    ((getCap caps "latminsec").isSome ↔ (getCap caps "longminsec").isSome) ∧
    ((getCap caps "latmin").isSome ↔ (getCap caps "longmin").isSome) := by
  rcases dms_minsec_sym s caps h with ⟨h1, h2, h3, h4⟩ | ⟨h1, h2, h3, h4⟩
  · exact ⟨⟨fun _ => h3, fun _ => h1⟩, ⟨fun _ => h4, fun _ => h2⟩⟩
  · constructor
    · rw [h1, h3]
    · rw [h2, h4]

/-- Witness for C5 (amended): minutes symmetry on the concrete match of
`"4523N/07319W"`. -/
theorem c5_witness :
    ((getCap [("longdir2", "W"), ("longminsec", "19"), ("longmin", "19"),
        ("longdeg", "073"), ("latdir2", "N"), ("latminsec", "23"),
        ("latmin", "23"), ("latdeg", "45")] "latminsec").isSome ↔
     (getCap [("longdir2", "W"), ("longminsec", "19"), ("longmin", "19"),
        ("longdeg", "073"), ("latdir2", "N"), ("latminsec", "23"),
        ("latmin", "23"), ("latdeg", "45")] "longminsec").isSome) ∧
    ((getCap [("longdir2", "W"), ("longminsec", "19"), ("longmin", "19"),
        ("longdeg", "073"), ("latdir2", "N"), ("latminsec", "23"),
        ("latmin", "23"), ("latdeg", "45")] "latmin").isSome ↔
     (getCap [("longdir2", "W"), ("longminsec", "19"), ("longmin", "19"),
        ("longdeg", "073"), ("latdir2", "N"), ("latminsec", "23"),
        ("latmin", "23"), ("latdeg", "45")] "longmin").isSome) :=
  c5_amended_minutes_symmetry "4523N/07319W" _ (by decide)

/-- C6, counterexample: with no direction token and no sign anywhere,
`_cleanup` leaves both hemisphere fields `None` — there is no 'N'/'W'
default — and the longitude is NOT negated: `"4630 5705"` matches the DMS
grammar with no directions and converts to a POSITIVE longitude. -/
theorem c6_counterexample :
    ((reMatch degreeMinSecRe "4630 5705").map
      (fun g => ((cleanup g).latdir, (cleanup g).longdir))) = some (none, none) ∧
    retrieveLatLong "4630 5705" = some ("46.501389", "70.083333") := by
  refine ⟨by decide, by decide⟩

/-- C6, amended: when a coordinate has no direction token and no sign
character, `_cleanup` leaves its hemisphere unset (`None`), and an unset
hemisphere is never negated: only `latdir = 'S'` / `longdir = 'W'`
trigger negation, so both outputs of such a match keep the nonnegative
sign. -/
theorem c6_amended_no_default_direction :
    (∀ g : Caps,
      getCap g "latdir" = none → getCap g "latdir2" = none →
      getCap g "latsign" = none → getCap g "longdir" = none →
      getCap g "longdir2" = none → getCap g "longsign" = none →
      (cleanup g).latdir = none ∧ (cleanup g).longdir = none) ∧
    (∀ (c : Cleaned) (lds lods : String) (a1 a2 a3 b1 b2 b3 : PyDec),
      c.latdeg = some lds → c.longdeg = some lods →
      parseDec lds = some a1 → parseDec c.latmin = some a2 →
      parseDec c.latsec = some a3 → parseDec lods = some b1 →
      parseDec c.longmin = some b2 → parseDec c.longsec = some b3 →
      c.latdir = none → c.longdir = none →
      convertToLatLng c = some
        (renderCoord false (ctxCoord a1.val a2.val a3.val
          (if fLt (fInt 59) a3.val ∨ fLt (fInt 59) b3.val then fInt 100 else fInt 60))
          (precisionOf c),
         renderCoord false (ctxCoord b1.val b2.val b3.val
          (if fLt (fInt 59) a3.val ∨ fLt (fInt 59) b3.val then fInt 100 else fInt 60))
          (precisionOf c))) := by
  constructor
  · intro g h1 h2 h3 h4 h5 h6
    simp only [cleanup, h1, h2, h3, h4, h5, h6]
    constructor <;> (split <;> rfl)
  · intro c lds lods a1 a2 a3 b1 b2 b3 h1 h2 h3 h4 h5 h6 h7 h8 hlat hlong
    unfold convertToLatLng
    simp only [h1, h2, bindSome, h3, h4, h5, h6, h7, h8, hlat, hlong]
    simp

/-- Witness for C6 (amended): unset directions on the concrete
direction-free match of `"4630 5705"` and its positive conversion. -/
theorem c6_witness :
    (cleanup [("longmin", "5"), ("longdeg", "70"), ("latminsec", "30 5"),
        ("latsec", "5"), ("latmin", "30"), ("latdeg", "46")]).latdir = none ∧
    (cleanup [("longmin", "5"), ("longdeg", "70"), ("latminsec", "30 5"),
        ("latsec", "5"), ("latmin", "30"), ("latdeg", "46")]).longdir = none ∧
    convertToLatLng ⟨none, some "46", "30", "5", none, some "70", "5", "00"⟩ =
      some ("46.501389", "70.083333") :=
  ⟨(c6_amended_no_default_direction.1
      [("longmin", "5"), ("longdeg", "70"), ("latminsec", "30 5"),
       ("latsec", "5"), ("latmin", "30"), ("latdeg", "46")] rfl rfl rfl rfl rfl rfl).1,
   (c6_amended_no_default_direction.1
      [("longmin", "5"), ("longdeg", "70"), ("latminsec", "30 5"),
       ("latsec", "5"), ("latmin", "30"), ("latdeg", "46")] rfl rfl rfl rfl rfl rfl).2,
   (c6_amended_no_default_direction.2
     ⟨none, some "46", "30", "5", none, some "70", "5", "00"⟩
     "46" "70" _ _ _ _ _ _ rfl rfl rfl rfl rfl rfl rfl rfl rfl rfl).trans (by decide)⟩

/-- C7, counterexample: an explicit direction letter does NOT take
precedence over a first-position minus sign: `"-59.59 N 43.50 E"`
captures both `latdir = "-"` and `latdir2 = "N"`, and the result is the
NEGATED latitude ("-59.59"), the letter being ignored. -/
theorem c7_counterexample :
    ((reMatch decimalDegreeRe "-59.59 N 43.50 E").map
      (fun g => (getCap g "latdir", getCap g "latdir2"))) = some (some "-", some "N") ∧
    retrieveLatLong "-59.59 N 43.50 E" = some ("-59.59", "43.50") := by
  refine ⟨by decide, by decide⟩

/-- C7, amended: precedence on the decimal-degree path is positional, not
token-kind: `_convert_signs` takes the first-position capture (which may
be the "-" of the `[NS-]`/`[EW-]` classes) over the second-position
letter.  A first-position "-" therefore negates its coordinate — by
multiplication with `Decimal('-1')` in the default 28-digit context —
even when an explicit letter follows; a letter decides only when the
first position is empty. -/
theorem c7_amended_positional_precedence :
    (∀ (g : Caps) (lat long : String) (pd1 pd2 : PyDec),
      getCap g "latdir" = some "-" →
      getCap g "latitude" = some lat → getCap g "longitude" = some long →
      parseDec lat = some pd1 → parseDec long = some pd2 →
      (convertSigns g).map Prod.fst = some (renderPyDec (pyDecMulNegOne pd1))) ∧
    (∀ (g : Caps) (lat long : String) (pd1 pd2 : PyDec),
      getCap g "longdir" = some "-" →
      getCap g "latitude" = some lat → getCap g "longitude" = some long →
      parseDec lat = some pd1 → parseDec long = some pd2 →
      (convertSigns g).map Prod.snd = some (renderPyDec (pyDecMulNegOne pd2))) ∧
    (∀ (g : Caps) (lat long : String) (pd1 pd2 : PyDec),
      getCap g "latdir" = none → getCap g "latdir2" = some "N" →
      getCap g "latitude" = some lat → getCap g "longitude" = some long →
      parseDec lat = some pd1 → parseDec long = some pd2 →
      (convertSigns g).map Prod.fst = some (renderPyDec pd1)) ∧
    (∀ (g : Caps) (lat long : String) (pd1 pd2 : PyDec),
      getCap g "latdir" = none → getCap g "latdir2" = some "S" →
      getCap g "latitude" = some lat → getCap g "longitude" = some long →
      parseDec lat = some pd1 → parseDec long = some pd2 →
      (convertSigns g).map Prod.fst = some (renderPyDec (pyDecMulNegOne pd1))) ∧
    (∀ (g : Caps) (lat long : String) (pd1 pd2 : PyDec),
      getCap g "longdir" = none → getCap g "longdir2" = some "E" →
      getCap g "latitude" = some lat → getCap g "longitude" = some long →
      parseDec lat = some pd1 → parseDec long = some pd2 →
      (convertSigns g).map Prod.snd = some (renderPyDec pd2)) ∧
    (∀ (g : Caps) (lat long : String) (pd1 pd2 : PyDec),
      getCap g "longdir" = none → getCap g "longdir2" = some "W" →
      getCap g "latitude" = some lat → getCap g "longitude" = some long →
      parseDec lat = some pd1 → parseDec long = some pd2 →
      (convertSigns g).map Prod.snd = some (renderPyDec (pyDecMulNegOne pd2))) := by
  refine ⟨?_, ?_, ?_, ?_, ?_, ?_⟩ <;>
    (intro g lat long pd1 pd2 h1 h2 h3 h4 h5
     first
       | (unfold convertSigns
          simp only [h1, h2, h3, bindSome, h4, h5]
          rfl)
       | (intro h6
          unfold convertSigns
          simp only [h1, h2, h3, bindSome, h4, h5, h6]
          rfl))

/-- Witness for C7 (amended): a minus in first position beats the letter
"N" in second position on the concrete capture mapping of
`"-59.59 N 43.50 E"`; the negated value renders as "-59.59". -/
theorem c7_witness :
    (convertSigns [("longdir2", "E"), ("longitude", "43.50"), ("longpoint", "."),
        ("latdir2", "N"), ("latitude", "59.59"), ("latpoint", "."),
        ("latdir", "-")]).map Prod.fst = some "-59.59" :=
  (c7_amended_positional_precedence.1
    [("longdir2", "E"), ("longitude", "43.50"), ("longpoint", "."),
     ("latdir2", "N"), ("latitude", "59.59"), ("latpoint", "."), ("latdir", "-")]
    "59.59" "43.50" ⟨false, 5959, -2⟩ ⟨false, 4350, -2⟩ rfl rfl rfl rfl rfl).trans
    (by decide)

/-- C8, counterexample: the normalizer is NOT applied before the
decimal-degree grammar.  `" N 59.59 W 43.50"` fails the decimal grammar
raw (leading space), its normalized form would match it and the
sign-normalized pair would be ("59.59", "-43.50") — but the code instead
normalizes only for the DMS grammar, which reads the same text as
59°59'/43°50' and returns ("59.983", "-43.833"). -/
theorem c8_counterexample :
    reMatch decimalDegreeRe " N 59.59 W 43.50" = none ∧
    ((reMatch decimalDegreeRe (normalizeString " N 59.59 W 43.50")).bind convertSigns) =
      some ("59.59", "-43.50") ∧
    retrieveLatLong " N 59.59 W 43.50" = some ("59.983", "-43.833") := by
  refine ⟨by decide, by decide, by decide⟩

/-- C8, amended: `retrieve_lat_long` tries the decimal-degree grammar on
the RAW input; only when that fails does it normalize and try the DMS
grammar on the normalized text. -/
theorem c8_amended_raw_decimal_first :
    (∀ (s : String) (caps : Caps), reMatch decimalDegreeRe s = some caps →
      retrieveLatLong s = convertSigns caps) ∧
    (∀ s : String, reMatch decimalDegreeRe s = none →
      retrieveLatLong s =
        (reMatch degreeMinSecRe (normalizeString s)).bind
          (fun caps => convertToLatLng (cleanup caps))) := by
  constructor
  · intro s caps h
    unfold retrieveLatLong
    rw [h]
  · intro s h
    unfold retrieveLatLong
    rw [h]
    cases reMatch degreeMinSecRe (normalizeString s) <;> rfl

/-- Witness for C8 (amended): the DMS fallback rule applied to
`" N 59.59 W 43.50"`, evaluated to the literal output. -/
theorem c8_witness :
    retrieveLatLong " N 59.59 W 43.50" = some ("59.983", "-43.833") :=
  (c8_amended_raw_decimal_first.2 " N 59.59 W 43.50" (by decide)).trans (by decide)

/-- C9: `_normalize_string` is idempotent, and apart from trimming
leading/trailing whitespace it only canonicalizes quote glyphs: the
single-quote/prime variants map to `'`, the double-quote variants —
the single-character ones and the spec's double backtick, which reaches
the second substitution as an apostrophe pair — map to `"`, and text free
of both kinds passes through unchanged.  (The two classes live in
`geolucidate/constants.py`, which is not among the sources; they are
modelled from the spec.) -/
theorem c9_normalizer_idempotent :
    (∀ s : String, normalizeString (normalizeString s) = normalizeString s) ∧
    (∀ s : String,
      (normalizeString s).toList = subSecondL ((stripBoth s.toList).map minuteChar)) ∧
    (∀ c : Char, c ∉ minuteChars → minuteChar c = c) ∧
    (∀ c : Char, c ∈ minuteChars → minuteChar c = '\'') ∧
    (∀ (c : Char) (rest : List Char), c ∈ secondChars →
      subSecondL (c :: rest) = '"' :: subSecondL rest) ∧
    (∀ rest : List Char, subSecondL ('`' :: '`' :: rest) = '"' :: subSecondL rest) ∧
    (∀ rest : List Char, subSecondL ('\'' :: '\'' :: rest) = '"' :: subSecondL rest) ∧
    (∀ l : List Char, noDoubles l = true → (∀ c ∈ l, c ∈ secondChars → c = '"') →
      subSecondL l = l) := by
  refine ⟨normalizeString_idem, normalizeString_toList,
    fun _ h => minuteChar_not_mem h, fun _ h => minuteChar_mem h,
    ?_, ?_, ?_, subSecondL_fix⟩
  · intro c rest hc
    match rest with
    | [] => show [if c ∈ secondChars then '"' else c] = ['"']; rw [if_pos hc]
    | d :: r =>
        have hpair : ¬((c = '`' ∧ d = '`') ∨ (c = '\'' ∧ d = '\'')) := by
          rintro (⟨h, -⟩ | ⟨h, -⟩) <;> (rw [h] at hc; revert hc; decide)
        show subSecondL (c :: d :: r) = _
        simp only [subSecondL]
        rw [if_neg hpair, if_pos hc]
  · intro rest
    rfl
  · intro rest
    rfl

/-- Witness for C9: idempotence and the concrete mappings — prime and
double prime collapse, a double backtick becomes one `"`, plain text is
untouched. -/
theorem c9_witness :
    normalizeString (normalizeString "  45º10′17″N  ") = normalizeString "  45º10′17″N  " ∧
    minuteChar 'x' = 'x' ∧ minuteChar '′' = '\'' ∧
    subSecondL ['″', 'N'] = '"' :: subSecondL ['N'] ∧
    subSecondL ['`', '`'] = '"' :: subSecondL [] ∧
    subSecondL ['a', 'b'] = ['a', 'b'] ∧
    normalizeString "a``b" = "a\"b" :=
  ⟨c9_normalizer_idempotent.1 _,
   c9_normalizer_idempotent.2.2.1 'x' (by decide),
   c9_normalizer_idempotent.2.2.2.1 '′' (by decide),
   c9_normalizer_idempotent.2.2.2.2.1 '″' ['N'] (by decide),
   c9_normalizer_idempotent.2.2.2.2.2.1 [],
   c9_normalizer_idempotent.2.2.2.2.2.2.2 ['a', 'b'] (by decide) (by decide),
   by decide⟩

/-- C10: on `"52N 43E"` the decimal-degree grammar matches with the
hemisphere letter captured INSIDE the numeric groups (latitude `"52N"`,
no decimal point, longitude `"43E"`), the captured text is not a valid
decimal numeral (`Decimal` raises `InvalidOperation`), and
`retrieve_lat_long` therefore fails even though the grammar accepted the
input. -/
theorem c10_trailing_nondigit_capture :
    ((reMatch decimalDegreeRe "52N 43E").map
      (fun g => (getCap g "latitude", getCap g "latpoint", getCap g "longitude"))) =
      some (some "52N", none, some "43E") ∧
    parseDec "52N" = none ∧
    parseDec "43E" = none ∧
    retrieveLatLong "52N 43E" = none := by
  refine ⟨by decide, by decide, by decide, by decide⟩

end Geolucidate
